import Mathlib

/-!
Shallow embedding of `core/pkg/ingress/controller/util.go` of the ingress
controller: the hostname matcher, the class selector, the ownership checker
and the annotation merger, together with theorems checking the specification
against this embedding.

External collaborators that the source file calls but whose code is not part
of the analysed source (the generic merge library, the annotation reader, the
pod-identity lookup) are modelled from the specification, each marked by a
doc comment starting with `Modelled from the spec:`.
-/

/-- Modelled from the spec: values of the heterogeneous Extracted Annotation
Map (Go `map[string]interface{}`): an error-typed denial reason, or ordinary
override values such as strings and booleans. -/
inductive AnnValue where
  | err (msg : String)
  | str (s : String)
  | boolean (b : Bool)
deriving DecidableEq

/-- Name of the key that contains the reason to deny a location
(`DeniedKeyName` in the source). -/
def DeniedKeyName : String := "Denied"

/-- Modelled from the spec: the Routing Location Model (`ingress.Location`,
defined outside the analysed source): a denial reason and a few override-able
fields (rewrite rule, backend selection, a boolean toggle). -/
structure Location where
  Denied : Option String
  Rewrite : String
  Backend : String
  EnableCORS : Bool
deriving DecidableEq

/-- The Extracted Annotation Map: Go `map[string]interface{}`, embedded as an
association list with (in well-formed inputs) pairwise distinct keys. -/
abbrev AnnMap := List (String × AnnValue)

/-- Go map read `anns[k]` returning presence: first binding of `k`. -/
def lookupA : AnnMap → String → Option AnnValue
  | [], _ => none
  | kv :: rest, k => if kv.1 = k then some kv.2 else lookupA rest k

/-- Go `delete(anns, k)`: removes every binding of `k`. -/
def eraseKey : AnnMap → String → AnnMap
  | [], _ => []
  | kv :: rest, k => if kv.1 = k then eraseKey rest k else kv :: eraseKey rest k

/-- Keys of the association list are pairwise distinct, as in a Go map. -/
def keysNodup (anns : AnnMap) : Prop :=
  anns.Pairwise (fun a b => a.1 ≠ b.1)

instance (anns : AnnMap) : Decidable (keysNodup anns) :=
  inferInstanceAs (Decidable (anns.Pairwise _))

/-- Modelled from the spec: one step of the generic best-effort field-by-name
merge performed by the external merge library (`mergo.Map`): a key naming a
field of the location whose value has the field's type overwrites that field;
a type mismatch or an unknown key is logged and skipped. -/
def mergoMapEntry (loc : Location) (kv : String × AnnValue) : Location :=
  if kv.1 = DeniedKeyName then
    match kv.2 with
    | AnnValue.err e => { loc with Denied := some e }
    | _ => loc
  else if kv.1 = "Rewrite" then
    match kv.2 with
    | AnnValue.str s => { loc with Rewrite := s }
    | _ => loc
  else if kv.1 = "Backend" then
    match kv.2 with
    | AnnValue.str s => { loc with Backend := s }
    | _ => loc
  else if kv.1 = "EnableCORS" then
    match kv.2 with
    | AnnValue.boolean b => { loc with EnableCORS := b }
    | _ => loc
  else loc

/-- Modelled from the spec: the generic best-effort merge of the whole map
(`mergo.Map(loc, anns)`), applying `mergoMapEntry` to every binding. -/
def mergoMap (loc : Location) (anns : AnnMap) : Location :=
  anns.foldl mergoMapEntry loc

/-- Embedding of `mergeLocationAnnotations`.  The Go function mutates `loc`
and `anns` in place; here the mutated pair is returned.  `none` models the
run-time panic of the unchecked type assertion `anns[DeniedKeyName].(error)`
when the stored value is not an error. -/
def mergeLocationAnnotations (loc : Location) (anns : AnnMap) :
    Option (Location × AnnMap) :=
  match lookupA anns DeniedKeyName with
  | some (AnnValue.err e) =>
    let loc1 := { loc with Denied := some e }
    let anns1 := eraseKey anns DeniedKeyName
    some (mergoMap loc1 anns1, anns1)
  | some _ => none
  | none =>
    let anns1 := eraseKey anns DeniedKeyName
    some (mergoMap loc anns1, anns1)

/-- Go `strings.TrimSuffix(s, ".")`: strips one trailing dot if present. -/
def trimDot (s : String) : String :=
  if s.data.getLast? = some '.' then String.mk s.data.dropLast else s

/-- Worker for `splitDot`: accumulates the current label (reversed). -/
def splitDotAux : List Char → List Char → List String
  | [], acc => [String.mk acc.reverse]
  | c :: rest, acc =>
    if c = '.' then String.mk acc.reverse :: splitDotAux rest []
    else splitDotAux rest (c :: acc)

/-- Go `strings.Split(s, ".")`. -/
def splitDot (s : String) : List String := splitDotAux s.data []

/-- The label-comparison loop of `matchHostnames`, on the zipped label lists,
carrying the running index `i` of the Go `range` loop. -/
def labelsMatchFrom : Nat → List (String × String) → Bool
  | _, [] => true
  | i, ph :: rest =>
    if i = 0 ∧ ph.1 = "*" then labelsMatchFrom (i + 1) rest
    else if ph.1 = ph.2 then labelsMatchFrom (i + 1) rest
    else false

/-- Embedding of `matchHostnames`. -/
def matchHostnames (pattern host : String) : Bool :=
  let host1 := trimDot host
  let pattern1 := trimDot pattern
  if pattern1.length = 0 ∨ host1.length = 0 then false
  else
    let patternParts := splitDot pattern1
    let hostParts := splitDot host1
    if patternParts.length ≠ hostParts.length then false
    else labelsMatchFrom 0 (patternParts.zip hostParts)

/-- The TLS certificate (`ingress.SSLCert`): only its `CN` pattern set is
read by the analysed source. -/
structure SSLCert where
  CN : List String
deriving DecidableEq

/-- Embedding of `isHostValid`; `none` models a nil certificate. -/
def isHostValid (host : String) (cert : Option SSLCert) : Bool :=
  match cert with
  | none => false
  | some c => c.CN.any (fun cn => matchHostnames cn host)

/-- Modelled from the spec: the annotation reader fails distinguishably when
the annotation is simply absent versus otherwise unreadable. -/
inductive ReadErr where
  | missing
  | malformed
deriving DecidableEq

/-- The controller configuration (`Configuration`): only the two class names
are read by the analysed source. -/
structure Configuration where
  IngressClass : String
  DefaultIngressClass : String
deriving DecidableEq

/-- The ingress resource (`extensions.Ingress`): only its annotation map is
read by the analysed source; `none` models a nil map. -/
structure Ingress where
  Annotations : Option (List (String × String))
deriving DecidableEq

/-- Go string-map read returning presence: first binding of `k`. -/
def lookupStr : List (String × String) → String → Option String
  | [], _ => none
  | kv :: rest, k => if kv.1 = k then some kv.2 else lookupStr rest k

/-- Modelled from the spec: the class-annotation key `ingressClassKey`, a
constant of the controller package defined outside the analysed source. -/
def ingressClassKey : String := "kubernetes.io/ingress.class"

/-- Modelled from the spec: `parser.GetStringAnnotation(ingressClassKey, ing)`
over this data model, failing with a missing-annotation error when the
annotation is absent. -/
def classAnnotationOf (ing : Ingress) : Except ReadErr String :=
  match ing.Annotations with
  | none => Except.error ReadErr.missing
  | some anns =>
    match lookupStr anns ingressClassKey with
    | some v => Except.ok v
    | none => Except.error ReadErr.missing

/-- Core of `IsValidClass`, taking the annotation-read result as input.  On
any read error the value is treated as empty and the error is only logged. -/
def isValidClassFrom (readResult : Except ReadErr String)
    (config : Configuration) : Bool :=
  let currentIngClass := config.IngressClass
  let cc := match readResult with
            | Except.ok v => v
            | Except.error _ => ""
  if (cc = "" ∧ currentIngClass = "") ∨
      currentIngClass = config.DefaultIngressClass then true
  else decide (cc = currentIngClass)

/-- Embedding of `IsValidClass`. -/
def IsValidClass (ing : Ingress) (config : Configuration) : Bool :=
  isValidClassFrom (classAnnotationOf ing) config

/-- The resource's class-annotation value, empty when absent. -/
def ingressClassValue (ing : Ingress) : String :=
  match classAnnotationOf ing with
  | Except.ok v => v
  | Except.error _ => ""

/-- The pod identity descriptor returned by the external identity lookup. -/
structure PodInfo where
  Name : String
deriving DecidableEq

/-- The load-balancer-ownership annotation key (`ingressLoadbalancerAnno` in
the source). -/
def ingressLoadbalancerAnno : String := "ingress.alpha.k8s.io/loadbalancer-name"

/-- Character-list worker for `goStartsWith`. -/
def charsStartWith : List Char → List Char → Bool
  | _, [] => true
  | [], _ :: _ => false
  | c :: cs, d :: ds => if c = d then charsStartWith cs ds else false

/-- Go `strings.HasPrefix(s, pre)`. -/
def goStartsWith (s pre : String) : Bool := charsStartWith s.data pre.data

/-- Embedding of `isAssignedToSelf`.  The external identity lookup
(`k8s.GetPodDetails`, modelled from the spec as it is outside the analysed
source) is passed in as its result.  The first component is the returned
boolean, `none` modelling the fatal `glog.Fatalf` termination on lookup
failure; the second component records whether the lookup was invoked. -/
def isAssignedToSelf (ing : Ingress) (podDetails : Except String PodInfo) :
    Option Bool × Bool :=
  match ing.Annotations with
  | none => (some false, false)
  | some anns =>
    match podDetails with
    | Except.error _ => (none, true)
    | Except.ok podInfo =>
      (some (goStartsWith ((lookupStr anns ingressLoadbalancerAnno).getD "")
        podInfo.Name), true)

theorem lookupA_cons_none (kv : String × AnnValue) (rest : AnnMap) (k : String) :
    lookupA (kv :: rest) k = none ↔ kv.1 ≠ k ∧ lookupA rest k = none := by
  by_cases h : kv.1 = k <;> simp [lookupA, h]

theorem lookupA_eraseKey_self (anns : AnnMap) (k : String) :
    lookupA (eraseKey anns k) k = none := by
  induction anns with
  | nil => rfl
  | cons kv rest ih =>
    by_cases h : kv.1 = k <;> simp [eraseKey, h, lookupA, ih]

theorem lookupA_eraseKey_ne (anns : AnnMap) (k k' : String) (h : k' ≠ k) :
    lookupA (eraseKey anns k) k' = lookupA anns k' := by
  have h2 : k ≠ k' := fun he => h he.symm
  induction anns with
  | nil => rfl
  | cons kv rest ih =>
    by_cases hk : kv.1 = k
    · simp [eraseKey, hk, lookupA, ih, h2]
    · by_cases hk' : kv.1 = k' <;> simp [eraseKey, hk, lookupA, hk', ih, h, h2]

theorem eraseKey_sublist (anns : AnnMap) (k : String) :
    (eraseKey anns k).Sublist anns := by
  induction anns with
  | nil => exact List.Sublist.refl _
  | cons kv rest ih =>
    by_cases h : kv.1 = k
    · rw [eraseKey, if_pos h]
      exact ih.cons kv
    · rw [eraseKey, if_neg h]
      exact ih.cons₂ kv

theorem keysNodup_eraseKey (anns : AnnMap) (k : String) (h : keysNodup anns) :
    keysNodup (eraseKey anns k) :=
  List.Pairwise.sublist (eraseKey_sublist anns k) h

theorem lookupA_none_of_forall (anns : AnnMap) (k : String)
    (h : ∀ kv ∈ anns, kv.1 ≠ k) : lookupA anns k = none := by
  induction anns with
  | nil => rfl
  | cons kv rest ih =>
    simp only [lookupA]
    rw [if_neg (h kv (List.mem_cons_self kv rest))]
    exact ih fun kv' hm => h kv' (List.mem_cons_of_mem kv hm)

theorem mergoMap_cons (loc : Location) (kv : String × AnnValue) (rest : AnnMap) :
    mergoMap loc (kv :: rest) = mergoMap (mergoMapEntry loc kv) rest := rfl

theorem mergoMapEntry_Denied_ne (loc : Location) (kv : String × AnnValue)
    (h : kv.1 ≠ DeniedKeyName) : (mergoMapEntry loc kv).Denied = loc.Denied := by
  unfold mergoMapEntry
  split_ifs <;> first | rfl | (cases kv.2 <;> rfl) | exact absurd ‹kv.1 = DeniedKeyName› h


theorem mergoMapEntry_Rewrite_ne (loc : Location) (kv : String × AnnValue)
    (h : kv.1 ≠ "Rewrite") : (mergoMapEntry loc kv).Rewrite = loc.Rewrite := by
  unfold mergoMapEntry
  split_ifs <;> first | rfl | (cases kv.2 <;> rfl)


theorem mergoMapEntry_Backend_ne (loc : Location) (kv : String × AnnValue)
    (h : kv.1 ≠ "Backend") : (mergoMapEntry loc kv).Backend = loc.Backend := by
  unfold mergoMapEntry
  split_ifs <;> first | rfl | (cases kv.2 <;> rfl)


theorem mergoMap_Denied_none (anns : AnnMap) :
    ∀ loc : Location, lookupA anns DeniedKeyName = none →
      (mergoMap loc anns).Denied = loc.Denied := by
  induction anns with
  | nil => intro loc _; rfl
  | cons kv rest ih =>
    intro loc h
    rw [lookupA_cons_none] at h
    rw [mergoMap_cons, ih _ h.2, mergoMapEntry_Denied_ne loc kv h.1]

theorem mergoMap_Rewrite_none (anns : AnnMap) :
    ∀ loc : Location, lookupA anns "Rewrite" = none →
      (mergoMap loc anns).Rewrite = loc.Rewrite := by
  induction anns with
  | nil => intro loc _; rfl
  | cons kv rest ih =>
    intro loc h
    rw [lookupA_cons_none] at h
    rw [mergoMap_cons, ih _ h.2, mergoMapEntry_Rewrite_ne loc kv h.1]

theorem mergoMap_Backend_none (anns : AnnMap) :
    ∀ loc : Location, lookupA anns "Backend" = none →
      (mergoMap loc anns).Backend = loc.Backend := by
  induction anns with
  | nil => intro loc _; rfl
  | cons kv rest ih =>
    intro loc h
    rw [lookupA_cons_none] at h
    rw [mergoMap_cons, ih _ h.2, mergoMapEntry_Backend_ne loc kv h.1]

theorem mergoMap_Rewrite_str (anns : AnnMap) :
    ∀ (loc : Location) (s : String), keysNodup anns →
      lookupA anns "Rewrite" = some (AnnValue.str s) →
      (mergoMap loc anns).Rewrite = s := by
  induction anns with
  | nil => intro loc s _ h; exact absurd h (by simp [lookupA])
  | cons kv rest ih =>
    intro loc s hn h
    rw [keysNodup, List.pairwise_cons] at hn
    by_cases hk : kv.1 = "Rewrite"
    · simp only [lookupA, if_pos hk] at h
      have hv : kv.2 = AnnValue.str s := Option.some.inj h
      have hrest : lookupA rest "Rewrite" = none :=
        lookupA_none_of_forall rest _ fun kv' hm => by
          rw [← hk]; exact fun he => hn.1 kv' hm he.symm
      rw [mergoMap_cons, mergoMap_Rewrite_none rest _ hrest]
      obtain ⟨k1, v⟩ := kv
      simp only at hk hv
      subst hk
      subst hv
      simp [mergoMapEntry, DeniedKeyName]
    · simp only [lookupA, if_neg hk] at h
      rw [mergoMap_cons]
      exact ih _ s hn.2 h

/-- C1: the "Denied" value is extracted into the location's denial field and
the key deleted strictly before the generic merge, so the merge can neither
overwrite nor clear the denial field: the final denial field is exactly the
value set by the extraction step, and the drained map no longer binds the
"Denied" key. -/
theorem mergeLocationAnnotations_denied_sticky
    (loc : Location) (anns : AnnMap) (loc' : Location) (anns' : AnnMap)
    (h : mergeLocationAnnotations loc anns = some (loc', anns')) :
    loc'.Denied = (match lookupA anns DeniedKeyName with
                   | some (AnnValue.err e) => some e
                   | _ => loc.Denied) ∧
    lookupA anns' DeniedKeyName = none := by
  simp only [mergeLocationAnnotations] at h
  cases hl : lookupA anns DeniedKeyName with
  | none =>
    rw [hl] at h
    simp only [Option.some.injEq, Prod.mk.injEq] at h
    refine ⟨?_, ?_⟩
    · rw [← h.1]
      exact mergoMap_Denied_none _ _ (lookupA_eraseKey_self anns DeniedKeyName)
    · rw [← h.2]
      exact lookupA_eraseKey_self anns DeniedKeyName
  | some v =>
    cases v with
    | err e =>
      rw [hl] at h
      simp only [Option.some.injEq, Prod.mk.injEq] at h
      refine ⟨?_, ?_⟩
      · rw [← h.1]
        exact mergoMap_Denied_none _ _ (lookupA_eraseKey_self anns DeniedKeyName)
      · rw [← h.2]
        exact lookupA_eraseKey_self anns DeniedKeyName
    | str s => rw [hl] at h; exact absurd h (by simp)
    | boolean b => rw [hl] at h; exact absurd h (by simp)

/-- Witness for C1 at a concrete input. -/
theorem mergeLocationAnnotations_denied_sticky_witness :
    (Location.mk (some "quota") "" "" false).Denied =
      (match lookupA [(DeniedKeyName, AnnValue.err "quota")] DeniedKeyName with
       | some (AnnValue.err e) => some e
       | _ => (Location.mk none "" "" false).Denied) ∧
    lookupA ([] : AnnMap) DeniedKeyName = none :=
  mergeLocationAnnotations_denied_sticky (Location.mk none "" "" false)
    [(DeniedKeyName, AnnValue.err "quota")] (Location.mk (some "quota") "" "" false)
    [] (by decide)

/-- C4: with "Denied" bound to an error value and "Rewrite" bound to "/x",
the merge sets the denial field to that error, overwrites the rewrite field
with "/x", leaves a field absent from the map untouched, and drains the
"Denied" key from the map. -/
theorem mergeLocationAnnotations_merge_fields
    (loc : Location) (anns : AnnMap) (e : String)
    (hnd : keysNodup anns)
    (hd : lookupA anns DeniedKeyName = some (AnnValue.err e))
    (hr : lookupA anns "Rewrite" = some (AnnValue.str "/x")) :
    ∃ loc' anns', mergeLocationAnnotations loc anns = some (loc', anns') ∧
      loc'.Denied = some e ∧ loc'.Rewrite = "/x" ∧
      lookupA anns' DeniedKeyName = none ∧
      (lookupA anns "Backend" = none → loc'.Backend = loc.Backend) := by
  have hRD : ("Rewrite" : String) ≠ DeniedKeyName := by decide
  have hBD : ("Backend" : String) ≠ DeniedKeyName := by decide
  refine ⟨mergoMap { loc with Denied := some e } (eraseKey anns DeniedKeyName),
          eraseKey anns DeniedKeyName, ?_, ?_, ?_, ?_, ?_⟩
  · simp only [mergeLocationAnnotations]
    rw [hd]
  · rw [mergoMap_Denied_none _ _ (lookupA_eraseKey_self anns DeniedKeyName)]
  · exact mergoMap_Rewrite_str _ _ _ (keysNodup_eraseKey anns _ hnd)
      (by rw [lookupA_eraseKey_ne anns DeniedKeyName "Rewrite" hRD]; exact hr)
  · exact lookupA_eraseKey_self anns DeniedKeyName
  · intro hb
    rw [mergoMap_Backend_none _ _
      (by rw [lookupA_eraseKey_ne anns DeniedKeyName "Backend" hBD]; exact hb)]

/-- Witness for C4 at a concrete input. -/
theorem mergeLocationAnnotations_merge_fields_witness :
    ∃ loc' anns',
      mergeLocationAnnotations (Location.mk none "" "b0" false)
        [(DeniedKeyName, AnnValue.err "denied"), ("Rewrite", AnnValue.str "/x")] =
        some (loc', anns') ∧
      loc'.Denied = some "denied" ∧ loc'.Rewrite = "/x" ∧
      lookupA anns' DeniedKeyName = none ∧
      (lookupA [(DeniedKeyName, AnnValue.err "denied"),
          ("Rewrite", AnnValue.str "/x")] "Backend" = none →
        loc'.Backend = (Location.mk none "" "b0" false).Backend) :=
  mergeLocationAnnotations_merge_fields (Location.mk none "" "b0" false)
    [(DeniedKeyName, AnnValue.err "denied"), ("Rewrite", AnnValue.str "/x")] "denied"
    (by decide) (by decide) (by decide)

/-- C9: the unchecked cast of the "Denied" entry is safe exactly when the
stored value is an error value: with an error value the merge completes, and
with a value of any other type it aborts with a run-time panic (modelled as
`none`) instead of a logged skip. -/
theorem mergeLocationAnnotations_denied_cast
    (loc : Location) (anns : AnnMap) (v : AnnValue)
    (h : lookupA anns DeniedKeyName = some v) :
    ((∃ e, v = AnnValue.err e) → (mergeLocationAnnotations loc anns).isSome = true) ∧
    ((∀ e, v ≠ AnnValue.err e) → mergeLocationAnnotations loc anns = none) := by
  constructor
  · rintro ⟨e, rfl⟩
    simp only [mergeLocationAnnotations]
    rw [h]
    rfl
  · intro hne
    simp only [mergeLocationAnnotations]
    rw [h]
    cases v with
    | err e => exact absurd rfl (hne e)
    | str s => rfl
    | boolean b => rfl

/-- Witness for C9 at a concrete input. -/
theorem mergeLocationAnnotations_denied_cast_witness :
    (mergeLocationAnnotations (Location.mk none "" "" false)
      [(DeniedKeyName, AnnValue.err "x")]).isSome = true :=
  (mergeLocationAnnotations_denied_cast (Location.mk none "" "" false)
    [(DeniedKeyName, AnnValue.err "x")] (AnnValue.err "x") (by decide)).1 ⟨"x", rfl⟩

/-- C8: recoverable errors are absorbed where they occur: a non-missing
class-annotation read error yields the same selection result as an empty
annotation value; the generic merge completes (no abort) whenever the
unchecked cast does not fire, for maps with arbitrary unknown or mismatched
entries; only the identity-lookup failure in `isAssignedToSelf` is fatal,
terminating the process (modelled as `none`) rather than returning a value. -/
theorem error_propagation_policy :
    (∀ config : Configuration,
       isValidClassFrom (Except.error ReadErr.malformed) config =
         isValidClassFrom (Except.ok "") config) ∧
    (∀ (loc : Location) (anns : AnnMap),
       (mergeLocationAnnotations loc (eraseKey anns DeniedKeyName)).isSome = true) ∧
    (∀ (anns : List (String × String)) (msg : String),
       isAssignedToSelf ⟨some anns⟩ (Except.error msg) = (none, true)) := by
  refine ⟨fun config => rfl, fun loc anns => ?_, fun anns msg => rfl⟩
  simp only [mergeLocationAnnotations]
  rw [lookupA_eraseKey_self]
  rfl

theorem string_length_eq_zero (s : String) : s.length = 0 ↔ s = "" := by
  cases s with
  | mk data =>
    constructor
    · intro h
      have hd : data = [] := List.length_eq_zero.mp h
      rw [hd]
    · intro h; rw [h]; rfl

theorem labelsMatchFrom_eq_true (l : List (String × String)) :
    ∀ k : Nat, labelsMatchFrom k l = true ↔
      ∀ i : Nat, i < l.length →
        (k + i = 0 ∧ (l.getD i ("", "")).1 = "*") ∨
        (l.getD i ("", "")).1 = (l.getD i ("", "")).2 := by
  induction l with
  | nil => intro k; simp [labelsMatchFrom]
  | cons ph rest ih =>
    intro k
    simp only [labelsMatchFrom]
    constructor
    · intro hm i hi
      cases i with
      | zero =>
        simp only [List.getD_cons_zero]
        by_cases h1 : k = 0 ∧ ph.1 = "*"
        · exact Or.inl ⟨by omega, h1.2⟩
        · rw [if_neg h1] at hm
          by_cases h2 : ph.1 = ph.2
          · exact Or.inr h2
          · rw [if_neg h2] at hm; exact absurd hm (by simp)
      | succ j =>
        simp only [List.getD_cons_succ]
        have hj : j < rest.length := by
          simp only [List.length_cons] at hi; omega
        have hr : labelsMatchFrom (k + 1) rest = true := by
          by_cases h1 : k = 0 ∧ ph.1 = "*"
          · rwa [if_pos h1] at hm
          · rw [if_neg h1] at hm
            by_cases h2 : ph.1 = ph.2
            · rwa [if_pos h2] at hm
            · rw [if_neg h2] at hm; exact absurd hm (by simp)
        cases (ih (k + 1)).1 hr j hj with
        | inl hl => exact Or.inl ⟨by omega, hl.2⟩
        | inr hr2 => exact Or.inr hr2
    · intro hall
      have hrest : labelsMatchFrom (k + 1) rest = true := by
        refine (ih (k + 1)).2 (fun j hj => ?_)
        have h' := hall (j + 1) (by simp only [List.length_cons]; omega)
        simp only [List.getD_cons_succ] at h'
        cases h' with
        | inl hl =>
          obtain ⟨hk, hs⟩ := hl
          exact Or.inl ⟨by omega, hs⟩
        | inr hr => exact Or.inr hr
      by_cases h1 : k = 0 ∧ ph.1 = "*"
      · rw [if_pos h1]; exact hrest
      · have h0 := hall 0 (by simp only [List.length_cons]; omega)
        simp only [List.getD_cons_zero] at h0
        have h2 : ph.1 = ph.2 := by
          cases h0 with
          | inl hl =>
            obtain ⟨hk, hs⟩ := hl
            exact absurd ⟨by omega, hs⟩ h1
          | inr hr => exact hr
        rw [if_neg h1, if_pos h2]; exact hrest

theorem zip_getD (l1 : List String) :
    ∀ (l2 : List String) (i : Nat), i < l1.length → i < l2.length →
      (l1.zip l2).getD i ("", "") = (l1.getD i "", l2.getD i "") := by
  induction l1 with
  | nil => intro l2 i hi _; exact absurd hi (by simp)
  | cons a as ih =>
    intro l2 i hi1 hi2
    cases l2 with
    | nil => exact absurd hi2 (by simp)
    | cons b bs =>
      cases i with
      | zero => rfl
      | succ j =>
        simp only [List.zip_cons_cons, List.getD_cons_succ]
        exact ih bs j (by simp only [List.length_cons] at hi1; omega)
          (by simp only [List.length_cons] at hi2; omega)

theorem matchHostnames_iff (pattern host : String) :
    matchHostnames pattern host = true ↔
      trimDot pattern ≠ "" ∧ trimDot host ≠ "" ∧
      (splitDot (trimDot pattern)).length = (splitDot (trimDot host)).length ∧
      ∀ i : Nat, i < (splitDot (trimDot pattern)).length →
        (i = 0 ∧ (splitDot (trimDot pattern)).getD i "" = "*") ∨
        (splitDot (trimDot pattern)).getD i "" =
          (splitDot (trimDot host)).getD i "" := by
  simp only [matchHostnames]
  by_cases hp : (trimDot pattern).length = 0
  · rw [if_pos (Or.inl hp)]
    simp only [Bool.false_eq_true, false_iff]
    intro hc
    exact hc.1 ((string_length_eq_zero _).mp hp)
  · by_cases hh : (trimDot host).length = 0
    · rw [if_pos (Or.inr hh)]
      simp only [Bool.false_eq_true, false_iff]
      intro hc
      exact hc.2.1 ((string_length_eq_zero _).mp hh)
    · rw [if_neg (fun hor => hor.elim hp hh)]
      by_cases hlen : (splitDot (trimDot pattern)).length =
          (splitDot (trimDot host)).length
      · rw [if_neg (fun hne => hne hlen)]
        rw [labelsMatchFrom_eq_true]
        constructor
        · intro hm
          refine ⟨fun he => hp (by rw [he]; rfl),
                  fun he => hh (by rw [he]; rfl), hlen, ?_⟩
          intro i hi
          have hiz : i < ((splitDot (trimDot pattern)).zip
              (splitDot (trimDot host))).length := by
            rw [List.length_zip, ← hlen, Nat.min_self]
            exact hi
          have hz := hm i hiz
          rw [zip_getD _ _ i hi (hlen ▸ hi)] at hz
          simpa using hz
        · rintro ⟨-, -, -, hall⟩
          intro i hiz
          have hi : i < (splitDot (trimDot pattern)).length := by
            rw [List.length_zip, ← hlen, Nat.min_self] at hiz
            exact hiz
          have hz := hall i hi
          rw [zip_getD _ _ i hi (hlen ▸ hi)]
          simpa using hz
      · rw [if_pos hlen]
        simp only [Bool.false_eq_true, false_iff]
        intro hc
        exact hlen hc.2.2.1

/-- C3: the hostname matcher strips one trailing dot from each operand,
rejects empty operands and differing label counts, and otherwise accepts
exactly when every label position agrees, position 0 of the pattern matching
unconditionally when it is exactly "*"; with the resulting concrete
behaviour on "*.example.com" and on a trailing-dot pattern. -/
theorem matchHostnames_characterization :
    (∀ pattern host : String,
       matchHostnames pattern host = true ↔
         trimDot pattern ≠ "" ∧ trimDot host ≠ "" ∧
         (splitDot (trimDot pattern)).length = (splitDot (trimDot host)).length ∧
         ∀ i : Nat, i < (splitDot (trimDot pattern)).length →
           (i = 0 ∧ (splitDot (trimDot pattern)).getD i "" = "*") ∨
           (splitDot (trimDot pattern)).getD i "" =
             (splitDot (trimDot host)).getD i "") ∧
    matchHostnames "*.example.com" "foo.example.com" = true ∧
    matchHostnames "*.example.com" "example.com" = false ∧
    matchHostnames "*.example.com" "a.foo.example.com" = false ∧
    matchHostnames "a.b." "a.b" = true :=
  ⟨matchHostnames_iff, by decide, by decide, by decide, by decide⟩

/-- C6: a nil certificate never validates a host; a present certificate
validates a host exactly when some pattern of its pattern set matches it, no
pattern being privileged. -/
theorem isHostValid_spec :
    (∀ h : String, isHostValid h none = false) ∧
    (∀ (h : String) (cert : SSLCert),
       isHostValid h (some cert) = true ↔
         ∃ cn ∈ cert.CN, matchHostnames cn h = true) := by
  refine ⟨fun h => rfl, fun h cert => ?_⟩
  simp [isHostValid, List.any_eq_true]

/-- C2: the class selector accepts exactly when both the resource's class
value (empty when absent) and the configured class are empty, or the
configured class equals the default class (accepting every annotation
value), or the resource's class value equals the configured class; and it
rejects the concrete nginx/haproxy/other combination. -/
theorem IsValidClass_characterization :
    (∀ (ing : Ingress) (config : Configuration),
       IsValidClass ing config = true ↔
         (ingressClassValue ing = "" ∧ config.IngressClass = "") ∨
         config.IngressClass = config.DefaultIngressClass ∨
         ingressClassValue ing = config.IngressClass) ∧
    IsValidClass ⟨some [(ingressClassKey, "nginx")]⟩ ⟨"haproxy", "other"⟩ = false := by
  refine ⟨fun ing config => ?_, by decide⟩
  simp only [IsValidClass, isValidClassFrom, ingressClassValue]
  by_cases h1 : ((match classAnnotationOf ing with
      | Except.ok v => v
      | Except.error _ => "") = "" ∧ config.IngressClass = "") ∨
      config.IngressClass = config.DefaultIngressClass
  · rw [if_pos h1]
    simp only [true_iff]
    tauto
  · rw [if_neg h1]
    simp only [decide_eq_true_eq]
    tauto

/-- C5 counterexample: for the empty but non-nil annotation map the identity
lookup is invoked, and with an empty identity name the function even returns
true, contradicting the claim's "returns false without invoking the external
identity lookup" for empty maps. -/
theorem isAssignedToSelf_empty_map_counterexample :
    (isAssignedToSelf ⟨some []⟩ (Except.ok ⟨"pod-1"⟩)).2 = true ∧
    (isAssignedToSelf ⟨some []⟩ (Except.ok ⟨""⟩)).1 = some true := by decide

/-- C5 amended: only a nil annotation map short-circuits to false without
invoking the identity lookup; a non-nil but empty map does invoke it. -/
theorem isAssignedToSelf_nil_map :
    (∀ pd : Except String PodInfo,
       isAssignedToSelf ⟨none⟩ pd = (some false, false)) ∧
    (∀ pd : Except String PodInfo, (isAssignedToSelf ⟨some []⟩ pd).2 = true) := by
  refine ⟨fun pd => rfl, fun pd => ?_⟩
  cases pd <;> rfl

theorem charsStartWith_iff (p : List Char) :
    ∀ l : List Char, charsStartWith l p = true ↔ ∃ t, l = p ++ t := by
  induction p with
  | nil =>
    intro l
    simp only [charsStartWith, List.nil_append]
    exact ⟨fun _ => ⟨l, rfl⟩, fun _ => trivial⟩
  | cons d ds ih =>
    intro l
    cases l with
    | nil =>
      simp only [charsStartWith]
      constructor
      · intro h; exact absurd h (by simp)
      · rintro ⟨t, ht⟩; exact absurd ht (by simp)
    | cons c cs =>
      simp only [charsStartWith, List.cons_append, List.cons.injEq]
      by_cases hcd : c = d
      · rw [if_pos hcd, ih cs]
        constructor
        · rintro ⟨t, ht⟩; exact ⟨t, hcd, ht⟩
        · rintro ⟨t, _, ht⟩; exact ⟨t, ht⟩
      · rw [if_neg hcd]
        constructor
        · intro h; exact absurd h (by simp)
        · rintro ⟨t, hc, _⟩; exact absurd hc hcd

theorem goStartsWith_iff (s pre : String) :
    goStartsWith s pre = true ↔ ∃ t : String, s = pre ++ t := by
  simp only [goStartsWith]
  rw [charsStartWith_iff]
  constructor
  · rintro ⟨t, ht⟩
    refine ⟨String.mk t, ?_⟩
    cases s with
    | mk sd =>
      cases pre with
      | mk pd =>
        simp only at ht
        rw [ht]
        rfl
  · rintro ⟨t, rfl⟩
    cases pre with
    | mk pd =>
      cases t with
      | mk td => exact ⟨td, rfl⟩

/-- C7: with a non-nil annotation map and a successful identity lookup, the
ownership check succeeds exactly when the load-balancer-ownership annotation
value (empty when absent) starts with the identity name. -/
theorem isAssignedToSelf_ownership (anns : List (String × String)) (name : String) :
    (isAssignedToSelf ⟨some anns⟩ (Except.ok ⟨name⟩)).1 = some true ↔
      ∃ rest : String,
        (lookupStr anns ingressLoadbalancerAnno).getD "" = name ++ rest := by
  have h1 : (isAssignedToSelf ⟨some anns⟩ (Except.ok ⟨name⟩)).1 =
      some (goStartsWith ((lookupStr anns ingressLoadbalancerAnno).getD "") name) := rfl
  rw [h1, Option.some_inj]
  exact goStartsWith_iff _ _

/-- C10: with a non-nil annotation map lacking the ownership annotation, the
value is treated as the empty string, so the check succeeds exactly when the
identity name is empty, and fails for every non-empty identity name. -/
theorem isAssignedToSelf_missing_anno (anns : List (String × String))
    (name : String) (h : lookupStr anns ingressLoadbalancerAnno = none) :
    ((isAssignedToSelf ⟨some anns⟩ (Except.ok ⟨name⟩)).1 = some true ↔ name = "") ∧
    (name ≠ "" → (isAssignedToSelf ⟨some anns⟩ (Except.ok ⟨name⟩)).1 = some false) := by
  have h1 : (isAssignedToSelf ⟨some anns⟩ (Except.ok ⟨name⟩)).1 =
      some (goStartsWith "" name) := by
    show some (goStartsWith ((lookupStr anns ingressLoadbalancerAnno).getD "") name) = _
    rw [h]
    rfl
  have h2 : goStartsWith "" name = true ↔ name = "" := by
    cases name with
    | mk nd =>
      cases nd with
      | nil => exact ⟨fun _ => rfl, fun _ => rfl⟩
      | cons c cs =>
        constructor
        · intro hx
          exact absurd hx (by simp [goStartsWith, charsStartWith])
        · intro hx
          exact absurd (congrArg String.data hx) (List.cons_ne_nil c cs)
  refine ⟨by rw [h1, Option.some_inj]; exact h2, fun hne => ?_⟩
  rw [h1]
  have h3 : goStartsWith "" name = false := by
    cases hb : goStartsWith "" name
    · rfl
    · exact absurd (h2.mp hb) hne
  rw [h3]

/-- Witness for C10 at a concrete input. -/
theorem isAssignedToSelf_missing_anno_witness :
    (isAssignedToSelf ⟨some [("a", "b")]⟩ (Except.ok ⟨"x"⟩)).1 = some false :=
  (isAssignedToSelf_missing_anno [("a", "b")] "x" (by decide)).2 (by decide)
